import Mathlib

/-!
Shallow embedding of the deposit lease and settlement engine of the
tronbot client repository.

Sources embedded here:
* `depositstack.py` — `DepositStack.add_deposit_request`,
  `DepositStack.process_next`, `DepositStack.receive_deposit`,
  `DepositStack.__len__`;
* `transfer.py` — `Funds.USDT.transfer` (broadcast, status marking and
  the receipt-polling while loop);
* `main.py` — the per-cycle body of `poll_recent_deposits`
  (`get_newdepositlogs` row selection, row-to-response mapping,
  `process_transfers`);
* `dbinit.py` — semantics of the stored procedures
  `get_newdepositlogs`, `update_transferred_status_true/false`,
  `add_deposit_record`, `check_if_deposit_processed`.

Timestamps are modelled as integers (seconds); `datetime` arithmetic with
`timedelta(seconds=k)` becomes integer addition.  Database tables are
modelled as lists threaded through the functions.  External collaborators
(Telegram sends, the HTTP credit call, web3) are modelled as emitted
actions and oracle functions.  Python exceptions that escape to a
surrounding `try` are modelled by an `aborted` flag: once raised, the
remaining work of the surrounding call does not happen, while mutations
already performed stay in place.
-/

namespace Tronbot

/-- Relevant fields of `client.py` class `Client` (chat_id, firstname,
lastname; the other fields are not consulted by the embedded code). In
Python each of these can be `None`. -/
structure Client where
  chat_id : Option Int
  firstname : Option String
  lastname : Option String
deriving DecidableEq, Repr

/-- Python truthiness of the `chat_id` field: `None` and `0` are falsy
(`if client_obj and client_obj.chat_id:` in `process_next`). -/
def chatIdTruthy : Option Int → Bool
  | none => false
  | some n => n != 0

/-- The deposit-request dictionary built in
`DepositStack.add_deposit_request` (depositstack.py lines 126-135). -/
structure DepositRequest where
  timestamp : Int
  etd : Int
  eta : Int
  client_obj : Option Client
  deposit_address : String
  sent_to_client : Bool
  referral : Option String
  multiplier : Option Rat
deriving DecidableEq, Repr

/-- The configuration constants of `config.py` consulted by the embedded
code. -/
structure Config where
  max_deposit_addresses : Nat
  deposit_addr_validity : Int
  deposit_addr_validity_buffer : Int
  ongoing_deposit_request_interval : Int
  deposit_request_stack_interval : Int
  admin_deposit_notification : Bool
  admin_chat_ids : List String
deriving DecidableEq, Repr

/-- The concrete values from `config.py`. -/
def CONFIG : Config :=
  { max_deposit_addresses := 10
    deposit_addr_validity := 150
    deposit_addr_validity_buffer := 30
    ongoing_deposit_request_interval := 60
    deposit_request_stack_interval := 10
    admin_deposit_notification := true
    admin_chat_ids := ["6916783573", "1366778530", "578856029"] }

/-- In-memory state of a `DepositStack` object: the fixed address list
and one FIFO list per address slot (`self.deposit_addresses` and
`self.stacks` in the source; the field is spelt `stacks'` here because
`stacks` is a reserved word in this Lean environment). -/
structure StackState where
  deposit_addresses : List String
  stacks' : List (List DepositRequest)
deriving DecidableEq, Repr

/-- `min(range(MAX_DEPOSIT_ADDRESSES), key=lambda i: len(self.stacks[i]))`
(depositstack.py line 109): the lowest index of a queue of minimal
length.  Python `min` keeps the first element attaining the minimum. -/
def minStackIndex (stacks' : List (List DepositRequest)) : Nat :=
  let lens := stacks'.map List.length
  match lens.min? with
  | some m => lens.indexOf m
  | none => 0

/-- Result of one `add_deposit_request` call: the new stack state, the
deposit-request dictionary returned to the caller, and whether the
queued notification of lines 141-154 was sent (queue length strictly
greater than one after the append). -/
structure AddResult where
  state : StackState
  request : DepositRequest
  queuedNote : Bool
deriving DecidableEq, Repr

/-- `DepositStack.add_deposit_request` (depositstack.py lines 84-156).
`now` is `datetime.now().isoformat()` of line 102.  The selected queue
is the least-loaded one; the window is chained behind the last queued
request when the queue is non-empty, otherwise it starts now. -/
def add_deposit_request (cfg : Config) (now : Int) (client : Client)
    (referral : Option String) (multiplier : Option Rat)
    (st : StackState) : AddResult :=
  let j := minStackIndex st.stacks'
  let q := st.stacks'.getD j []
  let dv := cfg.deposit_addr_validity
  let vb := cfg.deposit_addr_validity_buffer
  let etdEta : Int × Int :=
    match q.getLast? with
    | some last => (last.eta + 1, last.eta + dv + vb)
    | none => (now, now + dv + vb)
  let req : DepositRequest :=
    { timestamp := now
      etd := etdEta.1
      eta := etdEta.2
      client_obj := some client
      deposit_address := st.deposit_addresses.getD j ""
      sent_to_client := false
      referral := referral
      multiplier := multiplier }
  { state := { st with stacks' := st.stacks'.set j (q ++ [req]) }
    request := req
    queuedNote := decide (1 < (q ++ [req]).length) }

/-- `DepositStack.__len__` (depositstack.py lines 532-537): total number
of queued deposit requests across all the stacks. -/
def stackTotalLen (stacks' : List (List DepositRequest)) : Nat :=
  (stacks'.map List.length).sum

/-! ## `DepositStack.process_next` (the tick loop) -/

/-- A Telegram message attempt emitted during `process_next`. -/
inductive TickNote
  | depositPrompt (chat_id : Int) (addr : String)
  | reminder (chat_id : Int) (addr : String)
  | timeout (chat_id : Int) (addr : String)
deriving DecidableEq, Repr

/-- Result of one `process_next` tick: the updated stacks, the emitted
messages, and whether the cycle was cut short by an exception that the
outer handler of lines 287-288 caught. -/
structure TickOut where
  stacks' : List (List DepositRequest)
  notes : List TickNote
  aborted : Bool
deriving DecidableEq, Repr

/-- Handling of the head element of one stack inside the
`for stack in self.stacks` loop of `process_next` (depositstack.py lines
225-284).  Returns the updated stack, the emitted messages, and whether
an exception was raised.

The faulty-client branch (lines 234-240) executes `stack.pop[0]`, which
subscripts the bound method instead of calling it and therefore raises
`TypeError` before anything else happens: the element is NOT removed and
the warning log of line 239 is never reached; the exception propagates
to the outer handler. -/
def processOneStack (cfg : Config) (now : Int) :
    List DepositRequest → List DepositRequest × List TickNote × Bool
  | [] => ([], [], false)
  | e :: rest =>
    match e.client_obj with
    | none => (e :: rest, [], true)
    | some c =>
      if ¬ chatIdTruthy c.chat_id then (e :: rest, [], true)
      else
        let chat := c.chat_id.getD 0
        if ¬ e.sent_to_client then
          if e.etd ≤ now then
            ({ e with sent_to_client := true } :: rest,
              [TickNote.depositPrompt chat e.deposit_address], false)
          else (e :: rest, [], false)
        else
          if now < e.eta then
            if (now - e.etd) % cfg.ongoing_deposit_request_interval <
                cfg.deposit_request_stack_interval then
              (e :: rest, [TickNote.reminder chat e.deposit_address], false)
            else (e :: rest, [], false)
          else
            (rest, [TickNote.timeout chat e.deposit_address], false)

/-- The loop of `process_next` over all stacks.  On an exception the
loop stops: stacks already handled keep their updates, the remaining
ones are untouched. -/
def processNextLoop (cfg : Config) (now : Int) :
    List (List DepositRequest) → TickOut
  | [] => { stacks' := [], notes := [], aborted := false }
  | s :: rest =>
    let r := processOneStack cfg now s
    if r.2.2 then { stacks' := r.1 :: rest, notes := r.2.1, aborted := true }
    else
      let tail := processNextLoop cfg now rest
      { stacks' := r.1 :: tail.stacks'
        notes := r.2.1 ++ tail.notes
        aborted := tail.aborted }

/-- `DepositStack.process_next` (depositstack.py lines 221-288). -/
def process_next (cfg : Config) (now : Int)
    (stacks' : List (List DepositRequest)) : TickOut :=
  processNextLoop cfg now stacks'

/-! ## `DepositStack.receive_deposit` -/

/-- One element of the `response_data` list built in
`poll_recent_deposits` (main.py lines 1653-1661) and consumed by
`receive_deposit`. -/
structure DepositMsg where
  deposit_address : String
  asset : String
  txid : String
  amount : Rat
  refid : String
  credit_time_timestamp : Int
  created_at : Int
deriving DecidableEq, Repr

/-- The payload of the HTTP credit call (`requests.post` to the
handle-deposit endpoint, depositstack.py lines 359-378).  The constant
config fields (currency, method, fee percentages) are omitted; the
per-deposit fields are kept. -/
structure CreditCall where
  chat_id : Option Int
  firstname : String
  lastname : String
  amount : Rat
  deposit_address : String
  kraken_refid : String
  kraken_txid : String
  referral : Option String
  multiplier : Option Rat
deriving DecidableEq, Repr

/-- The deposit-confirmation message to the client (depositstack.py line
496); recorded with the chat id it was addressed to and the refid of the
deposit that triggered it. -/
structure ClientNote where
  chat_id : Int
  refid : String
deriving DecidableEq, Repr

/-- Accumulated effects of one `receive_deposit` call.  `processed`
models the durable `deposits` table keyed by refid
(`add_deposit_record` / `check_if_deposit_processed` in dbinit.py);
`ref_ids` models the in-memory `self.deposit_ref_ids` set (written at
line 513, never read back).  `aborted` models an exception escaping to
the outer handler of lines 519-520. -/
structure RecvAcc where
  processed : List String
  ref_ids : List String
  credits : List CreditCall
  communityNotes : List (String × Rat)
  clientNotes : List ClientNote
  referrerNotes : List (Option Int)
  adminNotes : List String
  aborted : Bool
deriving DecidableEq, Repr

/-- The username-masking block of depositstack.py lines 342-348 (first
character, rest replaced by asterisks). -/
def notificationUsername (first_name : String) : String :=
  if first_name ≠ "" then
    if 1 < first_name.length then
      (String.mk (first_name.toList.take 1)
        ++ String.mk (List.replicate (first_name.length - 1) '*')).trim
    else first_name.trim
  else "default_username"

/-- The matching condition of depositstack.py line 323:
`request['deposit_address'] == deposit_address and request['sent_to_client']
and etd_datetime <= credit_time and eta_datetime >= credit_time`, where
`credit_time = datetime.now()` (line 310) is the wall-clock time `t` at
which the deposit is being reconciled. -/
def matchCond (d : DepositMsg) (t : Int) (r : DepositRequest) : Bool :=
  r.deposit_address == d.deposit_address && r.sent_to_client
    && decide (r.etd ≤ t) && decide (t ≤ r.eta)

/-- First index (and element) of a stack satisfying `matchCond`, as
found by the `for i, request in enumerate(stack)` loop. -/
def findMatch (d : DepositMsg) (t : Int) :
    List DepositRequest → Option (Nat × DepositRequest)
  | [] => none
  | r :: rest =>
    if matchCond d t r then some (0, r)
    else (findMatch d t rest).map (fun p => (p.1 + 1, p.2))

/-- Modelled from the spec: `DataHandler.validate_referral` is called at
depositstack.py line 434 but is not defined in this repository (it lives
in the external returns service; spec section 6 treats the LedgerStore
as an external collaborator).  Modelled as a total lookup from referral
code to the referrer chat id. -/
def ValidateReferral := String → Option Int

/-- The per-deposit fields of the credit payload of depositstack.py
lines 359-374 for client `c`, deposit `d` and request `req`. -/
def creditOf (c : Client) (d : DepositMsg) (req : DepositRequest) : CreditCall :=
  { chat_id := c.chat_id
    firstname := c.firstname.getD ""
    lastname := c.lastname.getD ""
    amount := d.amount
    deposit_address := d.deposit_address
    kraken_refid := d.refid
    kraken_txid := d.txid
    referral := req.referral
    multiplier := req.multiplier }

/-- Body of the matched branch of `receive_deposit` (depositstack.py
lines 324-513), applied to the matching request `req` for deposit `d`.
Effect order follows the source: `add_deposit_record` (line 340), the
community notification (line 351, modelled from the spec as a
non-raising external notifier since `send_deposit_notification` is not
defined in this repository), the HTTP credit call (line 378, wrapped in
its own try), `int(chat_id)` (line 409, raises `TypeError` when chat_id
is None), the referral branches (lines 418-475; `multiplier - 1` at
line 453 raises `TypeError` when the multiplier is None), the client
confirmation send (line 496), admin broadcasts (lines 500-510) and the
in-memory refid set (line 513).  A raise sets `aborted` and keeps the
effects already performed. -/
def processMatch (cfg : Config) (V : ValidateReferral) (d : DepositMsg)
    (req : DepositRequest) (acc : RecvAcc) : RecvAcc :=
  match req.client_obj with
  | none => { acc with aborted := true }
  | some c =>
    let first_name := c.firstname.getD ""
    let acc := { acc with
      processed := acc.processed ++ [d.refid]
      communityNotes := acc.communityNotes ++
        [(notificationUsername first_name, d.amount)]
      credits := acc.credits ++ [creditOf c d req] }
    match c.chat_id with
    | none => { acc with aborted := true }
    | some chat =>
      let afterReferral : RecvAcc ⊕ RecvAcc :=
        match req.referral with
        | some code =>
          if ¬ code.startsWith "!bonuscode?" then
            Sum.inl { acc with
              referrerNotes := acc.referrerNotes ++ [V code] }
          else
            match req.multiplier with
            | none => Sum.inr { acc with aborted := true }
            | some _ => Sum.inl acc
        | none => Sum.inl acc
      match afterReferral with
      | Sum.inr bad => bad
      | Sum.inl acc =>
        let acc := { acc with
          clientNotes := acc.clientNotes ++
            [({ chat_id := chat, refid := d.refid } : ClientNote)] }
        let acc :=
          if cfg.admin_deposit_notification then
            { acc with adminNotes := acc.adminNotes ++ cfg.admin_chat_ids }
          else acc
        { acc with ref_ids := acc.ref_ids ++ [d.refid] }

/-- The `for stack in self.stacks` loop of `receive_deposit` for one
deposit `d` at reconciliation time `t` (depositstack.py lines 317-517).
A match triggers `processMatch` and then `stack.pop(i)` followed by
`break` out of the inner loop only, so scanning continues with the
remaining stacks.  An exception stops everything, leaving the current
stack unpopped. -/
def processStacks (cfg : Config) (V : ValidateReferral) (d : DepositMsg)
    (t : Int) : List (List DepositRequest) → RecvAcc →
    List (List DepositRequest) × RecvAcc
  | [], acc => ([], acc)
  | s :: rest, acc =>
    match findMatch d t s with
    | none =>
      let r := processStacks cfg V d t rest acc
      (s :: r.1, r.2)
    | some (i, req) =>
      let acc' := processMatch cfg V d req acc
      if acc'.aborted then (s :: rest, acc')
      else
        let r := processStacks cfg V d t rest acc'
        (s.eraseIdx i :: r.1, r.2)

/-- The `for deposit in deposits` loop of `receive_deposit`
(depositstack.py lines 304-517).  `clock k` is the value of
`datetime.now()` (line 310) when the k-th deposit of the list is
handled.  A deposit whose refid is already in the durable processed set
is skipped (`check_if_deposit_processed`, line 313). -/
def receiveDepositLoop (cfg : Config) (V : ValidateReferral)
    (clock : Nat → Int) : List DepositMsg → Nat →
    List (List DepositRequest) → RecvAcc →
    List (List DepositRequest) × RecvAcc
  | [], _, stacks', acc => (stacks', acc)
  | d :: ds, k, stacks', acc =>
    if acc.processed.contains d.refid then
      receiveDepositLoop cfg V clock ds (k + 1) stacks' acc
    else
      let r := processStacks cfg V d (clock k) stacks' acc
      if r.2.aborted then r
      else receiveDepositLoop cfg V clock ds (k + 1) r.1 r.2

/-- `DepositStack.receive_deposit` (depositstack.py lines 296-520).
`processed0` is the content of the durable `deposits` table before the
call; the action lists of the returned accumulator start empty, so they
record exactly the effects of this call. -/
def receive_deposit (cfg : Config) (V : ValidateReferral)
    (clock : Nat → Int) (deposits : List DepositMsg)
    (stacks' : List (List DepositRequest)) (processed0 : List String)
    (refids0 : List String) :
    List (List DepositRequest) × RecvAcc :=
  receiveDepositLoop cfg V clock deposits 0 stacks'
    { processed := processed0, ref_ids := refids0, credits := []
      communityNotes := [], clientNotes := [], referrerNotes := []
      adminNotes := [], aborted := false }

/-! ## `Funds.USDT.transfer` (transfer.py lines 80-174) -/

/-- A transaction receipt as consulted by the polling loop: only the
`status` field is read. -/
structure Receipt where
  status : Int
deriving DecidableEq, Repr

/-- Outcome of `send_raw_transaction` (transfer.py lines 142-146): a
transaction hash, or an exception (caught and returned as an error
string). -/
inductive BroadcastResult
  | ok (txhash : String)
  | err (msg : String)
deriving DecidableEq, Repr

/-- A call to `update_transferred_status_true` / `..._false`
(transfer.py lines 149 and 174; semantics from dbinit.py lines 479-514:
set the `transferred` flag of the depositlog row with the given
transaction id).  The quote-wrapping convention of the keys is
consistent between writer and reader (model.py lines 367 and 399), so
keys are modelled plainly. -/
inductive StatusUpdate
  | setTrue (txid : String)
  | setFalse (txid : String)
deriving DecidableEq, Repr

/-- `max_retries` of transfer.py line 152. -/
def maxRetries : Nat := 30

/-- Exit analysis of the receipt-polling `while` loop (transfer.py
lines 151-167): `while receipt is None and retry_count < max_retries`.
`poll n` is the result of the n-th `get_transaction_receipt` attempt
(`none` covers both a None return and a caught exception, which all
just sleep and loop again).  Crucially, the loop body never increments
`retry_count`, which the recursive call mirrors: `rc` is passed along
unchanged.  `fuel` is a bound on the number of iterations this model
unfolds; `outOfFuel` means the loop is still running after that many
iterations. -/
inductive PollExit
  | gotReceipt (r : Receipt) (rc : Nat)
  | guardFailed (rc : Nat)
  | outOfFuel (rc : Nat)
deriving DecidableEq, Repr

/-- The receipt-polling loop itself; see `PollExit`. -/
def pollLoop (poll : Nat → Option Receipt) : Nat → Nat → Nat → PollExit
  | 0, _n, rc => PollExit.outOfFuel rc
  | fuel + 1, n, rc =>
    if rc < maxRetries then
      match poll n with
      | some r => PollExit.gotReceipt r rc
      | none => pollLoop poll fuel (n + 1) rc
    else PollExit.guardFailed rc

/-- Final outcome of one `transfer` call.  `crashNoneStatus` is the
`AttributeError` that `receipt.status` (line 169) would raise if the
loop ever exited with `receipt` still None; `stillPolling` marks a run
that is still inside the while loop after `fuel` iterations. -/
inductive TransferOutcome
  | broadcastError (msg : String)
  | receiptSuccess (r : Receipt)
  | receiptFailure (r : Receipt)
  | stillPolling
  | crashNoneStatus
deriving DecidableEq, Repr

/-- Result of one `transfer` call: the transferred-status updates it
issued, in order, and its outcome. -/
structure TransferResult where
  updates : List StatusUpdate
  outcome : TransferOutcome
deriving DecidableEq, Repr

/-- `Funds.USDT.transfer` (transfer.py lines 80-174), reduced to its
observable settlement behaviour: broadcast, the immediate
`update_transferred_status_true` after a successful broadcast (line
149), the receipt-polling loop, and the
`update_transferred_status_false` on a receipt whose status is not 1
(line 174).  Gas estimation, signing and the message contents do not
affect any claim and are absorbed into the broadcast oracle. -/
def transfer (broadcast : BroadcastResult) (poll : Nat → Option Receipt)
    (fuel : Nat) (deposit_tx_id : String) : TransferResult :=
  match broadcast with
  | BroadcastResult.err m => { updates := [], outcome := TransferOutcome.broadcastError m }
  | BroadcastResult.ok _ =>
    let upd0 := [StatusUpdate.setTrue deposit_tx_id]
    match pollLoop poll fuel 0 0 with
    | PollExit.outOfFuel _ => { updates := upd0, outcome := TransferOutcome.stillPolling }
    | PollExit.guardFailed _ => { updates := upd0, outcome := TransferOutcome.crashNoneStatus }
    | PollExit.gotReceipt r _ =>
      if r.status = 1 then { updates := upd0, outcome := TransferOutcome.receiptSuccess r }
      else { updates := upd0 ++ [StatusUpdate.setFalse deposit_tx_id]
             outcome := TransferOutcome.receiptFailure r }

/-! ## The polling cycle of `poll_recent_deposits` (main.py) -/

/-- A row of the `depositlogs` table (dbinit.py lines 410-435). -/
structure LogRow where
  from_address : String
  to_address : String
  transaction_id : String
  block_number : Int
  block_timestamp : Int
  amount : Rat
  transferred : Bool
  created_at : Int
deriving DecidableEq, Repr

/-- `get_newdepositlogs` (dbinit.py lines 444-475): the depositlog rows
with `transferred = FALSE`. -/
def get_newdepositlogs (db : List LogRow) : List LogRow :=
  db.filter (fun r => !r.transferred)

/-- The row built in `poll_recent_deposits` (main.py lines 1653-1661).
Note that the `txid` field is filled with the FROM address and `refid`
with the transaction id, exactly as in the source. -/
def rowToMsg (r : LogRow) : DepositMsg :=
  { deposit_address := r.to_address
    asset := "USDT"
    txid := r.from_address
    amount := r.amount
    refid := r.transaction_id
    credit_time_timestamp := r.block_timestamp
    created_at := r.created_at }

/-- Application of one transferred-status update to the depositlogs
table (dbinit.py lines 479-514: an UPDATE keyed on transaction_id). -/
def applyUpdate (db : List LogRow) (u : StatusUpdate) : List LogRow :=
  match u with
  | StatusUpdate.setTrue id =>
    db.map (fun r => if r.transaction_id == id then { r with transferred := true } else r)
  | StatusUpdate.setFalse id =>
    db.map (fun r => if r.transaction_id == id then { r with transferred := false } else r)

/-- `process_transfers` (main.py lines 1577-1583): one `transfer` per
deposit row, keyed by its refid; the status updates of each transfer are
applied to the depositlogs table.  `broadcasts`/`polls` give, per
refid, the broadcast result and the receipt-poll sequence. -/
def process_transfers (broadcasts : String → BroadcastResult)
    (polls : String → Nat → Option Receipt) (fuel : Nat)
    (msgs : List DepositMsg) (db : List LogRow) : List LogRow :=
  msgs.foldl
    (fun dbAcc m =>
      (transfer (broadcasts m.refid) (polls m.refid) fuel m.refid).updates.foldl
        applyUpdate dbAcc)
    db

/-- One reconciliation cycle of `poll_recent_deposits` (main.py lines
1644-1668): select the not-yet-transferred depositlog rows, build the
response rows, run the sweep pass over all of them, and run
`receive_deposit` over the same snapshot.  In the source the sweep pass
runs as a concurrent task over the same snapshot; it touches only the
depositlogs table while `receive_deposit` touches only the stacks and
the deposits table, so the cycle is modelled as the two passes over the
shared snapshot. -/
def pollCycle (cfg : Config) (V : ValidateReferral) (clock : Nat → Int)
    (broadcasts : String → BroadcastResult)
    (polls : String → Nat → Option Receipt) (fuel : Nat)
    (db : List LogRow) (stacks' : List (List DepositRequest))
    (processed0 refids0 : List String) :
    List LogRow × (List (List DepositRequest) × RecvAcc) :=
  let msgs := (get_newdepositlogs db).map rowToMsg
  let db' := process_transfers broadcasts polls fuel msgs db
  let recv := receive_deposit cfg V clock msgs stacks' processed0 refids0
  (db', recv)

/-! ## Concrete fixtures used by witnesses and counterexamples -/

/-- A well-formed client. -/
def clA : Client := { chat_id := some 7, firstname := some "Ann", lastname := some "Bee" }

/-- A notified lease on address `addr1` with window `[0, 180]`
(validity 150 plus buffer 30, created at t = 0). -/
def reqA : DepositRequest :=
  { timestamp := 0, etd := 0, eta := 180, client_obj := some clA
    deposit_address := "addr1", sent_to_client := true, referral := none
    multiplier := none }

/-- A deposit event to `addr1` whose block timestamp is 200, outside the
window of `reqA`. -/
def msgA : DepositMsg :=
  { deposit_address := "addr1", asset := "USDT", txid := "0xfrom"
    amount := 25, refid := "tx1", credit_time_timestamp := 200
    created_at := 100 }

/-- A referral-validation oracle used in concrete runs. -/
def VA : ValidateReferral := fun _ => none

/-- A stack state with two empty queues. -/
def stEmpty : StackState :=
  { deposit_addresses := ["a0", "a1"], stacks' := [[], []] }

/-- A stack state whose single queue already holds `reqA`. -/
def stOne : StackState :=
  { deposit_addresses := ["addr1"], stacks' := [[reqA]] }

/-- A not-yet-swept depositlog row on an address with no lease. -/
def rowA : LogRow :=
  { from_address := "0xf", to_address := "addrX", transaction_id := "t1"
    block_number := 5, block_timestamp := 50, amount := 10
    transferred := false, created_at := 60 }

/-! ## C5: FIFO window chaining in `add_deposit_request` -/

/-- C5: lease admission chains windows FIFO per address: when the
selected queue is empty the window start (`etd`) of the new request is `now`;
when it is non-empty, the new window start is the window end (`eta`) of
the last queued request plus one second (depositstack.py lines
112-122).  Together with the tail append (C10) this gives the Nth
lease `window_start = (N-1)th window_end + 1`. -/
theorem add_deposit_request_window_chaining (cfg : Config) (now : Int)
    (client : Client) (ref : Option String) (mult : Option Rat)
    (st : StackState) :
    (let q := st.stacks'.getD (minStackIndex st.stacks') [];
     let r := add_deposit_request cfg now client ref mult st;
     (q = [] → r.request.etd = now) ∧
       ∀ last, q.getLast? = some last → r.request.etd = last.eta + 1) := by
  constructor
  · intro hq
    simp only [add_deposit_request]
    rw [hq]
    rfl
  · intro last hlast
    simp only [add_deposit_request]
    rw [hlast]

/-- Witness for C5: both branches evaluated on concrete states. -/
theorem add_deposit_request_window_chaining_witness :
    (add_deposit_request CONFIG 1000 clA none none stEmpty).request.etd = 1000 ∧
      (add_deposit_request CONFIG 100 clA none none stOne).request.etd = 181 := by
  refine ⟨(add_deposit_request_window_chaining CONFIG 1000 clA none none stEmpty).1 (by decide), ?_⟩
  have h := (add_deposit_request_window_chaining CONFIG 100 clA none none stOne).2
    reqA (by decide)
  simpa [reqA] using h

/-! ## C6: `window_end = window_start + validity + buffer` -/

/-- Counterexample to C6: admitting a lease behind `reqA`
(whose `eta` is 180) at `now = 100` with the configured validity 150 and
buffer 30 yields `etd = 181` but `eta = 360`, which is
`etd + validity + buffer - 1`, not `etd + validity + buffer` (the
non-empty branch of depositstack.py lines 113-116 derives BOTH times
from the previous `eta`, so the extra second added to `etd` is not
reflected in `eta`). -/
theorem add_deposit_request_eta_counterexample :
    (add_deposit_request CONFIG 100 clA none none stOne).request.etd = 181 ∧
      (add_deposit_request CONFIG 100 clA none none stOne).request.eta = 360 ∧
      ¬ ((add_deposit_request CONFIG 100 clA none none stOne).request.eta =
        (add_deposit_request CONFIG 100 clA none none stOne).request.etd
          + CONFIG.deposit_addr_validity + CONFIG.deposit_addr_validity_buffer) := by
  decide

/-- C6 amended: a lease admitted to an empty queue satisfies
`eta = etd + validity + buffer`; a lease admitted behind a prior lease
satisfies `eta = etd + validity + buffer - 1`. -/
theorem add_deposit_request_eta_amended (cfg : Config) (now : Int)
    (client : Client) (ref : Option String) (mult : Option Rat)
    (st : StackState) :
    (let q := st.stacks'.getD (minStackIndex st.stacks') [];
     let r := add_deposit_request cfg now client ref mult st;
     (q.getLast? = none → r.request.eta =
        r.request.etd + cfg.deposit_addr_validity + cfg.deposit_addr_validity_buffer) ∧
       (∀ last, q.getLast? = some last → r.request.eta =
        r.request.etd + cfg.deposit_addr_validity + cfg.deposit_addr_validity_buffer - 1)) := by
  constructor
  · intro hq
    simp only [add_deposit_request]
    rw [hq]
  · intro last hlast
    simp only [add_deposit_request]
    rw [hlast]
    dsimp only
    ring

/-- Witness for the amended C6 on both branches. -/
theorem add_deposit_request_eta_amended_witness :
    (add_deposit_request CONFIG 1000 clA none none stEmpty).request.eta = 1180 ∧
      (add_deposit_request CONFIG 100 clA none none stOne).request.eta = 360 := by
  constructor
  · have h := (add_deposit_request_eta_amended CONFIG 1000 clA none none stEmpty).1 (by decide)
    simpa [add_deposit_request, stEmpty, CONFIG] using h
  · have h := (add_deposit_request_eta_amended CONFIG 100 clA none none stOne).2 reqA (by decide)
    simpa [add_deposit_request, stOne, reqA, CONFIG] using h

/-! ## C7: malformed client record at the head of a queue -/

/-- A head lease whose client record is missing. -/
def reqFaulty : DepositRequest := { reqA with client_obj := none }

/-- C7 evaluated at the failing input: when `process_next` meets a head
lease with a malformed client record, the code executes `stack.pop[0]`
(depositstack.py line 238) — a subscript of the bound `pop` method, not
a call — which raises `TypeError` before the element is removed and
before the intended warning log.  The tick aborts through the generic
handler of lines 287-288, the queue is left UNCHANGED (the faulty lease
is NOT removed, contrary to the comment on line 238 and to the claim),
and no user notification is emitted. -/
theorem process_next_faulty_client_behaviour :
    process_next CONFIG 100 [[reqFaulty]] =
      { stacks' := [[reqFaulty]], notes := [], aborted := true } := by
  decide

/-! ## C4: the receipt-polling loop is NOT bounded -/

/-- C4 evaluated at the failing input: `retry_count` is initialised to 0
(transfer.py line 153) and never incremented in the loop body, so when
`get_transaction_receipt` never yields a receipt (`poll ≡ none`, i.e. a
transaction that is never mined), the while loop of lines 154-167 is
still running after ANY number `fuel` of iterations, with `retry_count`
still 0: the guard `receipt is None and retry_count < max_retries` never
becomes false and the loop never terminates, contrary to the claimed
bound of `max_retries = 30` attempts. -/
theorem pollLoop_never_terminates_without_receipt (fuel n : Nat) :
    pollLoop (fun _ => none) fuel n 0 = PollExit.outOfFuel 0 := by
  induction fuel generalizing n with
  | zero => rfl
  | succ k ih => simpa [pollLoop, maxRetries] using ih (n + 1)

/-! ## C8: sweep status discipline in `transfer` -/

/-- C8: (1) if the broadcast raises, no transferred-status change is
issued and the attempt ends in a logged broadcast error (transfer.py
lines 142-146); (2) after a successful broadcast the FIRST status
action is `update_transferred_status_true` for the source transaction,
issued before any receipt polling (line 149); (3) if the polling loop
obtains a receipt whose status is not 1, the event is marked back to
not-transferred (line 174). -/
theorem transfer_status_discipline (poll : Nat → Option Receipt)
    (fuel : Nat) (id : String) :
    (∀ m, transfer (BroadcastResult.err m) poll fuel id =
      { updates := [], outcome := TransferOutcome.broadcastError m }) ∧
    (∀ h, (transfer (BroadcastResult.ok h) poll fuel id).updates.head? =
      some (StatusUpdate.setTrue id)) ∧
    (∀ h r rc, pollLoop poll fuel 0 0 = PollExit.gotReceipt r rc →
      r.status ≠ 1 →
      transfer (BroadcastResult.ok h) poll fuel id =
        { updates := [StatusUpdate.setTrue id, StatusUpdate.setFalse id]
          outcome := TransferOutcome.receiptFailure r }) := by
  refine ⟨fun m => rfl, fun h => ?_, fun h r rc hexit hst => ?_⟩
  · simp only [transfer]
    cases hp : pollLoop poll fuel 0 0 with
    | gotReceipt r rc =>
      by_cases h1 : r.status = 1 <;> simp [h1]
    | guardFailed rc => simp
    | outOfFuel rc => simp
  · simp only [transfer, hexit]
    simp [hst]

/-- Witness for C8: all three parts at concrete inputs. -/
theorem transfer_status_discipline_witness :
    transfer (BroadcastResult.err "boom") (fun _ => some { status := 1 }) 5 "t1" =
        { updates := [], outcome := TransferOutcome.broadcastError "boom" } ∧
      (transfer (BroadcastResult.ok "0xh") (fun _ => some { status := 1 }) 5 "t1").updates.head? =
        some (StatusUpdate.setTrue "t1") ∧
      transfer (BroadcastResult.ok "0xh") (fun _ => some { status := 0 }) 5 "t1" =
        { updates := [StatusUpdate.setTrue "t1", StatusUpdate.setFalse "t1"]
          outcome := TransferOutcome.receiptFailure { status := 0 } } := by
  refine ⟨(transfer_status_discipline (fun _ => some { status := 1 }) 5 "t1").1 "boom",
    (transfer_status_discipline (fun _ => some { status := 1 }) 5 "t1").2.1 "0xh",
    (transfer_status_discipline (fun _ => some { status := 0 }) 5 "t1").2.2 "0xh"
      { status := 0 } 0 (by decide) (by decide)⟩

/-! ## C10: frame conditions of `add_deposit_request` -/

/-- Elements strictly before the first occurrence of `a` differ from
`a`. -/
theorem getElem_ne_of_lt_indexOf {l : List Nat} {a : Nat} {i : Nat}
    (h : i < l.indexOf a) (hi : i < l.length) : l[i] ≠ a := by
  induction l generalizing i with
  | nil => simp at hi
  | cons b t ih =>
    by_cases hba : b = a
    · subst hba
      simp [List.indexOf_cons_self] at h
    · rw [List.indexOf_cons_ne _ hba] at h
      cases i with
      | zero => simpa using hba
      | succ i => exact ih (Nat.lt_of_succ_lt_succ h) (Nat.lt_of_succ_lt_succ hi)

/-- The lengths list of the stacks always has a minimum when there is at
least one stack. -/
theorem stacks_min?_isSome (ss : List (List DepositRequest))
    (h : 0 < ss.length) : ∃ m, (ss.map List.length).min? = some m := by
  cases ss with
  | nil => simp at h
  | cons a t => exact ⟨_, rfl⟩

/-- `minStackIndex` selects an in-range index whose queue length is
minimal, and every queue with a strictly smaller index is strictly
longer (Python `min` keeps the first minimum). -/
theorem minStackIndex_spec (ss : List (List DepositRequest))
    (h : 0 < ss.length) :
    minStackIndex ss < ss.length ∧
      (∀ i, i < ss.length →
        (ss.getD (minStackIndex ss) []).length ≤ (ss.getD i []).length) ∧
      (∀ i, i < minStackIndex ss →
        (ss.getD (minStackIndex ss) []).length < (ss.getD i []).length) := by
  obtain ⟨m, hm⟩ := stacks_min?_isSome ss h
  have hmem : m ∈ ss.map List.length :=
    List.min?_mem (fun a b => min_choice a b) hm
  have hle : ∀ b ∈ ss.map List.length, m ≤ b :=
    (List.le_min?_iff (fun _ _ _ => le_min_iff) hm).mp (le_refl m)
  have hidx : (ss.map List.length).indexOf m < (ss.map List.length).length :=
    List.indexOf_lt_length.mpr hmem
  have hj : minStackIndex ss = (ss.map List.length).indexOf m := by
    simp [minStackIndex, hm]
  have hjlen : minStackIndex ss < ss.length := by
    rw [hj]
    simpa using hidx
  have hlenD : ∀ i, i < ss.length →
      (ss.map List.length)[i]? = some (ss.getD i []).length := by
    intro i hi
    rw [List.getD_eq_getElem ss [] hi, List.getElem?_map,
      List.getElem?_eq_getElem hi]
    rfl
  have hmemD : ∀ i, i < ss.length →
      (ss.getD i []).length ∈ ss.map List.length := by
    intro i hi
    exact List.getElem?_mem (hlenD i hi)
  have hlenj : (ss.getD (minStackIndex ss) []).length = m := by
    have h1 : (ss.map List.length)[minStackIndex ss]? = some m := by
      rw [hj, List.getElem?_eq_getElem hidx]
      exact congrArg some (List.getElem_indexOf hidx)
    have h2 := hlenD (minStackIndex ss) hjlen
    rw [h1] at h2
    exact (Option.some.inj h2).symm
  refine ⟨hjlen, ?_, ?_⟩
  · intro i hi
    rw [hlenj]
    exact hle _ (hmemD i hi)
  · intro i hij
    have hi : i < ss.length := lt_trans hij hjlen
    have hne : (ss.getD i []).length ≠ m := by
      have hb : i < (ss.map List.length).length := by simpa using hi
      have h3 := getElem_ne_of_lt_indexOf (a := m)
        (show i < (ss.map List.length).indexOf m by rw [← hj]; exact hij) hb
      intro heq
      apply h3
      have h4 := hlenD i hi
      rw [List.getElem?_eq_getElem hb] at h4
      rw [Option.some.inj h4, heq]
    have hlei : m ≤ (ss.getD i []).length := hle _ (hmemD i hi)
    rw [hlenj]
    exact lt_of_le_of_ne hlei (fun he => hne he.symm)

/-- Setting a queue to itself plus one appended element increases the
total count by one. -/
theorem stackTotalLen_set_append (l : List (List DepositRequest)) (j : Nat)
    (r : DepositRequest) (h : j < l.length) :
    stackTotalLen (l.set j (l.getD j [] ++ [r])) = stackTotalLen l + 1 := by
  induction l generalizing j with
  | nil => simp at h
  | cons a t ih =>
    cases j with
    | zero =>
      simp [stackTotalLen]
      omega
    | succ j =>
      have hj : j < t.length := Nat.lt_of_succ_lt_succ h
      have := ih j hj
      simp only [List.set, List.getD_cons_succ, stackTotalLen, List.map_cons,
        List.sum_cons] at *
      omega

/-- C10: every call appends exactly one request at the tail of exactly
one queue — the least-loaded one, ties broken by the lowest slot index —
leaves every other queue and the fixed deposit-address list unchanged,
and increases the total request count (`__len__`) by exactly one. -/
theorem add_deposit_request_frame (cfg : Config) (now : Int)
    (client : Client) (ref : Option String) (mult : Option Rat)
    (st : StackState) (h : 0 < st.stacks'.length) :
    (let j := minStackIndex st.stacks';
     let r := add_deposit_request cfg now client ref mult st;
     j < st.stacks'.length ∧
       (∀ i, i < st.stacks'.length →
         (st.stacks'.getD j []).length ≤ (st.stacks'.getD i []).length) ∧
       (∀ i, i < j →
         (st.stacks'.getD j []).length < (st.stacks'.getD i []).length) ∧
       r.state.stacks' = st.stacks'.set j (st.stacks'.getD j [] ++ [r.request]) ∧
       (∀ i, i ≠ j → r.state.stacks'.getD i [] = st.stacks'.getD i []) ∧
       r.state.deposit_addresses = st.deposit_addresses ∧
       stackTotalLen r.state.stacks' = stackTotalLen st.stacks' + 1) := by
  obtain ⟨hjlen, hmin, hfirst⟩ := minStackIndex_spec st.stacks' h
  refine ⟨hjlen, hmin, hfirst, rfl, ?_, rfl, ?_⟩
  · intro i hi
    show (st.stacks'.set (minStackIndex st.stacks') _).getD i [] = _
    rw [List.getD_eq_getElem?_getD, List.getD_eq_getElem?_getD,
      List.getElem?_set_ne (by exact fun he => hi he.symm)]
    exact (List.getD_eq_getElem?_getD _ _ _).symm
  · exact stackTotalLen_set_append st.stacks' (minStackIndex st.stacks') _ hjlen

/-- Witness for C10 at a concrete two-queue state. -/
theorem add_deposit_request_frame_witness :
    minStackIndex stEmpty.stacks' < stEmpty.stacks'.length ∧
      stackTotalLen (add_deposit_request CONFIG 1000 clA none none stEmpty).state.stacks' =
        stackTotalLen stEmpty.stacks' + 1 := by
  have h := add_deposit_request_frame CONFIG 1000 clA none none stEmpty (by decide)
  exact ⟨h.1, h.2.2.2.2.2.2⟩

/-! ## Reconciliation soundness lemmas (`receive_deposit`) -/

/-- Unfolding of the matching condition into its four conjuncts. -/
theorem matchCond_iff (d : DepositMsg) (t : Int) (r : DepositRequest) :
    matchCond d t r = true ↔
      r.deposit_address = d.deposit_address ∧ r.sent_to_client = true ∧
        r.etd ≤ t ∧ t ≤ r.eta := by
  simp [matchCond, and_assoc]

/-- A mismatching address refutes the matching condition. -/
theorem matchCond_false_of_addr {d : DepositMsg} {t : Int}
    {r : DepositRequest} (h : r.deposit_address ≠ d.deposit_address) :
    matchCond d t r = false := by
  simp [matchCond, h]

/-- A found match is a member of the stack and satisfies the matching
condition. -/
theorem findMatch_sound {d : DepositMsg} {t : Int} :
    ∀ {s : List DepositRequest} {p : Nat × DepositRequest},
      findMatch d t s = some p → p.2 ∈ s ∧ matchCond d t p.2 = true
  | [], _, h => by simp [findMatch] at h
  | x :: rest, p, h => by
    by_cases hc : matchCond d t x
    · rw [findMatch, if_pos hc] at h
      have h' := Option.some.inj h
      rw [← h']
      exact ⟨List.mem_cons_self x rest, hc⟩
    · rw [findMatch, if_neg hc] at h
      cases hrest : findMatch d t rest with
      | none => rw [hrest] at h; simp at h
      | some q =>
        rw [hrest] at h
        simp only [Option.map_some'] at h
        have h' := Option.some.inj h
        obtain ⟨hmem, hcond⟩ := findMatch_sound hrest
        have h2 : q.2 = p.2 := by rw [← h']
        rw [← h2]
        exact ⟨List.mem_cons_of_mem x hmem, hcond⟩

/-- If nothing in the stack satisfies the matching condition, no match
is found. -/
theorem findMatch_none {d : DepositMsg} {t : Int} :
    ∀ {s : List DepositRequest},
      (∀ r ∈ s, matchCond d t r = false) → findMatch d t s = none
  | [], _ => rfl
  | x :: rest, h => by
    have hx := h x (List.mem_cons_self x rest)
    simp [findMatch, hx]
    exact findMatch_none fun r hr => h r (List.mem_cons_of_mem x hr)

/-- `processMatch` either leaves the credit list alone (malformed
client) or appends exactly one credit, keyed by the refid of the
deposit it was produced for. -/
theorem processMatch_credits (cfg : Config) (V : ValidateReferral)
    (d : DepositMsg) (req : DepositRequest) (acc : RecvAcc) :
    (processMatch cfg V d req acc).credits = acc.credits ∨
      ∃ cr, (processMatch cfg V d req acc).credits = acc.credits ++ [cr] ∧
        cr.kraken_refid = d.refid := by
  cases hco : req.client_obj with
  | none =>
    left
    simp [processMatch, hco]
  | some c =>
    right
    refine ⟨creditOf c d req, ?_, rfl⟩
    cases hch : c.chat_id with
    | none => simp [processMatch, hco, hch]
    | some chat =>
      cases href : req.referral with
      | none =>
        cases hadm : cfg.admin_deposit_notification <;>
          simp [processMatch, hco, hch, href, hadm]
      | some code =>
        by_cases hb : code.startsWith "!bonuscode?"
        · cases hmul : req.multiplier with
          | none => simp [processMatch, hco, hch, href, hb, hmul]
          | some m =>
            cases hadm : cfg.admin_deposit_notification <;>
              simp [processMatch, hco, hch, href, hb, hmul, hadm]
        · cases hadm : cfg.admin_deposit_notification <;>
            simp [processMatch, hco, hch, href, hb, hadm]

/-- Every request surviving `processStacks` was already present
beforehand. -/
theorem processStacks_flatten_sub (cfg : Config) (V : ValidateReferral)
    (d : DepositMsg) (t : Int) :
    ∀ (ss : List (List DepositRequest)) (acc : RecvAcc) (x : DepositRequest),
      x ∈ (processStacks cfg V d t ss acc).1.flatten → x ∈ ss.flatten
  | [], acc, x, h => h
  | s :: rest, acc, x, h => by
    unfold processStacks at h
    cases hf : findMatch d t s with
    | none =>
      rw [hf] at h
      simp only [List.flatten_cons, List.mem_append] at h ⊢
      rcases h with h | h
      · exact Or.inl h
      · exact Or.inr (processStacks_flatten_sub cfg V d t rest acc x h)
    | some p =>
      obtain ⟨i, req⟩ := p
      rw [hf] at h
      simp only at h
      by_cases ha : (processMatch cfg V d req acc).aborted
      · rw [if_pos ha] at h
        exact h
      · rw [if_neg ha] at h
        simp only [List.flatten_cons, List.mem_append] at h ⊢
        rcases h with h | h
        · exact Or.inl (List.mem_of_mem_eraseIdx h)
        · exact Or.inr (processStacks_flatten_sub cfg V d t rest _ x h)

/-- Soundness of the scan of one deposit over all stacks: every credit in the
output either was already accumulated or is justified by a request that
satisfied the matching condition for this deposit at this time. -/
theorem processStacks_credits_sound (cfg : Config) (V : ValidateReferral)
    (d : DepositMsg) (t : Int) :
    ∀ (ss : List (List DepositRequest)) (acc : RecvAcc) (c : CreditCall),
      c ∈ (processStacks cfg V d t ss acc).2.credits →
      c ∈ acc.credits ∨
        ∃ r ∈ ss.flatten, matchCond d t r = true ∧ c.kraken_refid = d.refid
  | [], acc, c, h => Or.inl h
  | s :: rest, acc, c, h => by
    unfold processStacks at h
    cases hf : findMatch d t s with
    | none =>
      rw [hf] at h
      rcases processStacks_credits_sound cfg V d t rest acc c h with h' | ⟨r, hr, hm⟩
      · exact Or.inl h'
      · refine Or.inr ⟨r, ?_, hm⟩
        simp only [List.flatten_cons, List.mem_append]
        exact Or.inr hr
    | some p =>
      obtain ⟨i, req⟩ := p
      obtain ⟨hmem, hcond⟩ := findMatch_sound hf
      rw [hf] at h
      simp only at h
      have hjust : ∀ c', c' ∈ (processMatch cfg V d req acc).credits →
          c' ∈ acc.credits ∨
            ∃ r ∈ (s :: rest).flatten, matchCond d t r = true ∧
              c'.kraken_refid = d.refid := by
        intro c' hc'
        rcases processMatch_credits cfg V d req acc with heq | ⟨cr, heq, hcr⟩
        · rw [heq] at hc'
          exact Or.inl hc'
        · rw [heq] at hc'
          rcases List.mem_append.mp hc' with h' | h'
          · exact Or.inl h'
          · refine Or.inr ⟨req, ?_, hcond, ?_⟩
            · simp only [List.flatten_cons, List.mem_append]
              exact Or.inl hmem
            · rw [List.mem_singleton.mp h']
              exact hcr
      by_cases ha : (processMatch cfg V d req acc).aborted
      · rw [if_pos ha] at h
        exact hjust c h
      · rw [if_neg ha] at h
        rcases processStacks_credits_sound cfg V d t rest _ c h with h' | ⟨r, hr, hm⟩
        · exact hjust c h'
        · refine Or.inr ⟨r, ?_, hm⟩
          simp only [List.flatten_cons, List.mem_append]
          exact Or.inr hr

/-- Soundness of the deposit loop: every credit in the output either was
already accumulated or is justified by some deposit of the list and some
request that was queued when the loop started, matching at the clock
time of the iteration of that deposit. -/
theorem receiveDepositLoop_credits_sound (cfg : Config)
    (V : ValidateReferral) (clock : Nat → Int) :
    ∀ (ds : List DepositMsg) (k : Nat)
      (ss : List (List DepositRequest)) (acc : RecvAcc) (c : CreditCall),
      c ∈ (receiveDepositLoop cfg V clock ds k ss acc).2.credits →
      c ∈ acc.credits ∨
        ∃ j d r, ds[j]? = some d ∧ r ∈ ss.flatten ∧
          matchCond d (clock (k + j)) r = true ∧ c.kraken_refid = d.refid
  | [], _, _, acc, c, h => Or.inl h
  | d :: ds, k, ss, acc, c, h => by
    rw [receiveDepositLoop] at h
    by_cases hp : acc.processed.contains d.refid
    · rw [if_pos hp] at h
      rcases receiveDepositLoop_credits_sound cfg V clock ds (k + 1) ss acc c h with
        h' | ⟨j, d', r, hj, hr, hm, hk⟩
      · exact Or.inl h'
      · refine Or.inr ⟨j + 1, d', r, by simpa using hj, hr, ?_, hk⟩
        have : k + 1 + j = k + (j + 1) := by omega
        rw [← this]
        exact hm
    · rw [if_neg hp] at h
      by_cases ha : (processStacks cfg V d (clock k) ss acc).2.aborted
      · rw [if_pos ha] at h
        rcases processStacks_credits_sound cfg V d (clock k) ss acc c h with
          h' | ⟨r, hr, hm, hk⟩
        · exact Or.inl h'
        · exact Or.inr ⟨0, d, r, by simp, hr, by simpa using hm, hk⟩
      · rw [if_neg ha] at h
        rcases receiveDepositLoop_credits_sound cfg V clock ds (k + 1) _ _ c h with
          h' | ⟨j, d', r, hj, hr, hm, hk⟩
        · rcases processStacks_credits_sound cfg V d (clock k) ss acc c h' with
            h'' | ⟨r, hr, hm, hk⟩
          · exact Or.inl h''
          · exact Or.inr ⟨0, d, r, by simp, hr, by simpa using hm, hk⟩
        · refine Or.inr ⟨j + 1, d', r, by simpa using hj,
            processStacks_flatten_sub cfg V d (clock k) ss acc r hr, ?_, hk⟩
          have : k + 1 + j = k + (j + 1) := by omega
          rw [← this]
          exact hm

/-! ## C1: what the reconciliation match actually tests -/

/-- Counterexample to C1: the deposit `msgA` carries block timestamp
200, outside the window `[0, 180]` of the lease `reqA`, yet when the
reconciliation loop runs at wall-clock time 100 the deposit IS matched
and credited: `receive_deposit` compares the window against
`datetime.now()` (`credit_time`, depositstack.py line 310), not against
the block timestamp of the event, which it never reads. -/
theorem receive_deposit_block_timestamp_counterexample :
    (receive_deposit CONFIG VA (fun _ => 100) [msgA] [[reqA]] [] []).2.credits.length = 1 ∧
      msgA.credit_time_timestamp = 200 ∧ reqA.etd = 0 ∧ reqA.eta = 180 ∧
      ¬ (reqA.etd ≤ msgA.credit_time_timestamp ∧
          msgA.credit_time_timestamp ≤ reqA.eta) := by
  decide

/-- C1 amended: `receive_deposit` credits an event to a lease only if
the lease address equals the event `to_address`, the lease has been
notified (`sent_to_client`), and the RECONCILIATION wall-clock time (the
`datetime.now()` value of the iteration that handles the event) lies in
`[window_start, window_end]`; the block timestamp of the event is not
consulted.  In particular an event processed at time 200 against a
lease with window `[0, 180]` is not matched. -/
theorem receive_deposit_match_only_if (cfg : Config)
    (V : ValidateReferral) (clock : Nat → Int) (deposits : List DepositMsg)
    (ss : List (List DepositRequest)) (p0 rf0 : List String)
    (c : CreditCall)
    (hc : c ∈ (receive_deposit cfg V clock deposits ss p0 rf0).2.credits) :
    ∃ k d r, deposits[k]? = some d ∧ r ∈ ss.flatten ∧
      r.deposit_address = d.deposit_address ∧ r.sent_to_client = true ∧
      r.etd ≤ clock k ∧ clock k ≤ r.eta ∧ c.kraken_refid = d.refid := by
  rcases receiveDepositLoop_credits_sound cfg V clock deposits 0 ss _ c hc with
    h' | ⟨j, d, r, hj, hr, hm, hk⟩
  · simp at h'
  · obtain ⟨h1, h2, h3, h4⟩ := (matchCond_iff d (clock (0 + j)) r).mp hm
    exact ⟨j, d, r, hj, hr, h1, h2, by simpa using h3, by simpa using h4, hk⟩

/-- Witness for the amended C1: the concrete credited deposit of the
counterexample run satisfies the matching conditions at the clock time
100, and a run of the same input at clock time 200 produces no credit at
all. -/
theorem receive_deposit_match_only_if_witness :
    (∃ k d r, [msgA][k]? = some d ∧ r ∈ [[reqA]].flatten ∧
      r.deposit_address = d.deposit_address ∧ r.sent_to_client = true ∧
      r.etd ≤ (fun _ : Nat => (100 : Int)) k ∧
      (fun _ : Nat => (100 : Int)) k ≤ r.eta ∧
      (creditOf clA msgA reqA).kraken_refid = d.refid) ∧
    (receive_deposit CONFIG VA (fun _ => 200) [msgA] [[reqA]] [] []).2.credits = [] := by
  constructor
  · exact receive_deposit_match_only_if CONFIG VA (fun _ => 100) [msgA]
      [[reqA]] [] [] (creditOf clA msgA reqA) (by decide)
  · decide

/-! ## C2: idempotent crediting -/

/-- A matched request whose processing runs to completion without
raising: the client object is present, its chat id is not None, and a
bonus-code referral comes with a multiplier. -/
def reqCompletes (r : DepositRequest) : Bool :=
  match r.client_obj with
  | none => false
  | some c =>
    c.chat_id.isSome &&
      (match r.referral with
       | some code => (!code.startsWith "!bonuscode?") || r.multiplier.isSome
       | none => true)

/-- For a request that completes, `processMatch` records the refid as
processed, appends exactly one credit and one client confirmation, and
does not raise. -/
theorem processMatch_completed (cfg : Config) (V : ValidateReferral)
    (d : DepositMsg) (req : DepositRequest) (acc : RecvAcc)
    (h : reqCompletes req = true) :
    (processMatch cfg V d req acc).aborted = acc.aborted ∧
      (processMatch cfg V d req acc).processed = acc.processed ++ [d.refid] ∧
      (processMatch cfg V d req acc).credits.length = acc.credits.length + 1 ∧
      (processMatch cfg V d req acc).clientNotes.length =
        acc.clientNotes.length + 1 := by
  cases hco : req.client_obj with
  | none => rw [reqCompletes, hco] at h; exact absurd h (by simp)
  | some c =>
    rw [reqCompletes, hco] at h
    simp only [Bool.and_eq_true] at h
    obtain ⟨hch, hrest⟩ := h
    obtain ⟨chat, hchat⟩ := Option.isSome_iff_exists.mp hch
    cases href : req.referral with
    | none =>
      cases hadm : cfg.admin_deposit_notification <;>
        simp [processMatch, hco, hchat, href, hadm]
    | some code =>
      rw [href] at hrest
      by_cases hb : code.startsWith "!bonuscode?"
      · simp only [hb, Bool.not_true, Bool.false_or] at hrest
        obtain ⟨m, hm⟩ := Option.isSome_iff_exists.mp hrest
        cases hadm : cfg.admin_deposit_notification <;>
          simp [processMatch, hco, hchat, href, hb, hm, hadm]
      · cases hadm : cfg.admin_deposit_notification <;>
          simp [processMatch, hco, hchat, href, hb, hadm]

/-- A scan over stacks in which nothing matches changes nothing. -/
theorem processStacks_no_match (cfg : Config) (V : ValidateReferral)
    (d : DepositMsg) (t : Int) :
    ∀ (ss : List (List DepositRequest)) (acc : RecvAcc),
      (∀ r ∈ ss.flatten, matchCond d t r = false) →
      processStacks cfg V d t ss acc = (ss, acc)
  | [], acc, _ => rfl
  | s :: rest, acc, h => by
    have hs : findMatch d t s = none :=
      findMatch_none fun r hr => h r (by
        simp only [List.flatten_cons, List.mem_append]; exact Or.inl hr)
    rw [processStacks, hs]
    rw [processStacks_no_match cfg V d t rest acc (fun r hr => h r (by
      simp only [List.flatten_cons, List.mem_append]; exact Or.inr hr))]

/-- A scan over stacks in which exactly the distinguished stack matches:
the match is processed once and the matched request popped. -/
theorem processStacks_exactly_one (cfg : Config) (V : ValidateReferral)
    (d : DepositMsg) (t : Int) (sj : List DepositRequest)
    (post : List (List DepositRequest)) (i : Nat) (req : DepositRequest)
    (hfind : findMatch d t sj = some (i, req))
    (hcomp : reqCompletes req = true)
    (hpost : ∀ r ∈ post.flatten, matchCond d t r = false) :
    ∀ (pre : List (List DepositRequest)) (acc : RecvAcc),
      acc.aborted = false →
      (∀ r ∈ pre.flatten, matchCond d t r = false) →
      processStacks cfg V d t (pre ++ sj :: post) acc =
        (pre ++ sj.eraseIdx i :: post, processMatch cfg V d req acc)
  | [], acc, hab, _ => by
    have hna : (processMatch cfg V d req acc).aborted = false := by
      rw [(processMatch_completed cfg V d req acc hcomp).1, hab]
    simp only [List.nil_append, processStacks, hfind]
    rw [if_neg (by rw [hna]; exact Bool.false_ne_true)]
    rw [processStacks_no_match cfg V d t post _ hpost]
  | s :: pre, acc, hab, hpre => by
    have hs : findMatch d t s = none :=
      findMatch_none fun r hr => hpre r (by
        simp only [List.flatten_cons, List.mem_append]; exact Or.inl hr)
    have ih := processStacks_exactly_one cfg V d t sj post i req hfind hcomp
      hpost pre acc hab (fun r hr => hpre r (by
        simp only [List.flatten_cons, List.mem_append]; exact Or.inr hr))
    rw [List.cons_append, processStacks, hs, ih]
    rfl

/-- C2: processing the same chain event twice — same refid, here within
one `receive_deposit` call, which by induction on the durable processed
set covers two successive calls equally — yields exactly one credit call
and exactly one client deposit-confirmation: the second observation is
skipped because `check_if_deposit_processed` finds the refid recorded by
`add_deposit_record` during the first observation. -/
theorem receive_deposit_idempotent (cfg : Config) (V : ValidateReferral)
    (clock : Nat → Int) (d : DepositMsg) (sj : List DepositRequest)
    (pre post : List (List DepositRequest)) (i : Nat)
    (req : DepositRequest) (p0 rf0 : List String)
    (hfind : findMatch d (clock 0) sj = some (i, req))
    (hcomp : reqCompletes req = true)
    (hpre : ∀ r ∈ pre.flatten, matchCond d (clock 0) r = false)
    (hpost : ∀ r ∈ post.flatten, matchCond d (clock 0) r = false)
    (hfresh : p0.contains d.refid = false) :
    (receive_deposit cfg V clock [d, d] (pre ++ sj :: post) p0 rf0).2.credits.length = 1 ∧
      (receive_deposit cfg V clock [d, d] (pre ++ sj :: post) p0 rf0).2.clientNotes.length = 1 := by
  set acc0 : RecvAcc :=
    { processed := p0, ref_ids := rf0, credits := []
      communityNotes := [], clientNotes := [], referrerNotes := []
      adminNotes := [], aborted := false } with hacc0
  obtain ⟨hab1, hproc1, hcred1, hnote1⟩ :=
    processMatch_completed cfg V d req acc0 hcomp
  have hone := processStacks_exactly_one cfg V d (clock 0) sj post i req
    hfind hcomp hpost pre acc0 rfl hpre
  have hskip : (processMatch cfg V d req acc0).processed.contains d.refid = true := by
    rw [hproc1]
    simp [hacc0]
  show ((receiveDepositLoop cfg V clock [d, d] 0 (pre ++ sj :: post) acc0).2.credits.length = 1 ∧
    (receiveDepositLoop cfg V clock [d, d] 0 (pre ++ sj :: post) acc0).2.clientNotes.length = 1)
  rw [receiveDepositLoop]
  rw [if_neg (by rw [hacc0]; simpa using hfresh)]
  rw [hone]
  simp only
  rw [if_neg (by simp only [hab1, hacc0]; exact Bool.false_ne_true)]
  rw [receiveDepositLoop, if_pos hskip, receiveDepositLoop]
  refine ⟨?_, ?_⟩
  · rw [hcred1]
    simp [hacc0]
  · rw [hnote1]
    simp [hacc0]

/-- Witness for C2: the concrete deposit `msgA` observed twice against a
single queue holding the matching lease `reqA` yields exactly one credit
and one confirmation. -/
theorem receive_deposit_idempotent_witness :
    (receive_deposit CONFIG VA (fun _ => 100) [msgA, msgA] [[reqA]] [] []).2.credits.length = 1 ∧
      (receive_deposit CONFIG VA (fun _ => 100) [msgA, msgA] [[reqA]] [] []).2.clientNotes.length = 1 := by
  have h := receive_deposit_idempotent CONFIG VA (fun _ => 100) msgA [reqA]
    [] [] 0 reqA [] [] (by decide) (by decide) (by simp) (by simp) (by decide)
  simpa using h

/-! ## C3: unmatched events and the pending set -/

/-- The transaction id an update is keyed on. -/
def updateKey : StatusUpdate → String
  | StatusUpdate.setTrue id => id
  | StatusUpdate.setFalse id => id

/-- Every depositlog row carrying the given transaction id is marked
transferred. -/
def AllTrue (db : List LogRow) (id : String) : Prop :=
  ∀ row ∈ db, row.transaction_id = id → row.transferred = true

/-- Each update issued by one `transfer` call is keyed on its own
deposit transaction id. -/
theorem transfer_updates_key (b : BroadcastResult)
    (poll : Nat → Option Receipt) (fuel : Nat) (id : String) :
    ∀ u ∈ (transfer b poll fuel id).updates, updateKey u = id := by
  intro u hu
  cases b with
  | err m => simp [transfer] at hu
  | ok h =>
    simp only [transfer] at hu
    cases hp : pollLoop poll fuel 0 0 with
    | outOfFuel rc =>
      rw [hp] at hu
      simp only [List.mem_singleton] at hu
      rw [hu]; rfl
    | guardFailed rc =>
      rw [hp] at hu
      simp only [List.mem_singleton] at hu
      rw [hu]; rfl
    | gotReceipt r rc =>
      rw [hp] at hu
      dsimp only at hu
      by_cases h1 : r.status = 1
      · rw [if_pos h1] at hu
        simp only [List.mem_singleton] at hu
        rw [hu]; rfl
      · rw [if_neg h1] at hu
        simp only [List.mem_append, List.mem_singleton] at hu
        rcases hu with hu | hu <;> (rw [hu]; rfl)

/-- An update keyed on a different transaction id does not disturb
`AllTrue`. -/
theorem applyUpdate_preserves_AllTrue {db : List LogRow} {id : String}
    (u : StatusUpdate) (hkey : updateKey u ≠ id) (h : AllTrue db id) :
    AllTrue (applyUpdate db u) id := by
  intro row' hrow' hid
  cases u with
  | setTrue id' =>
    simp only [applyUpdate, List.mem_map] at hrow'
    obtain ⟨row, hrow, heq⟩ := hrow'
    by_cases hb : row.transaction_id == id'
    · rw [if_pos hb] at heq
      rw [← heq]
    · rw [if_neg hb] at heq
      rw [← heq]
      exact h row hrow (by rw [← hid, heq])
  | setFalse id' =>
    simp only [applyUpdate, List.mem_map] at hrow'
    obtain ⟨row, hrow, heq⟩ := hrow'
    by_cases hb : row.transaction_id == id'
    · rw [if_pos hb] at heq
      have hrid : row.transaction_id = id' := by simpa using hb
      have h2 : row'.transaction_id = id' := by rw [← heq]; exact hrid
      have hcon : id' = id := h2.symm.trans hid
      exact absurd hcon hkey
    · rw [if_neg hb] at heq
      rw [← heq]
      exact h row hrow (by rw [← hid, heq])

/-- `setTrue` establishes `AllTrue` for its own transaction id. -/
theorem applyUpdate_setTrue_AllTrue (db : List LogRow) (id : String) :
    AllTrue (applyUpdate db (StatusUpdate.setTrue id)) id := by
  intro row' hrow' hid
  simp only [applyUpdate, List.mem_map] at hrow'
  obtain ⟨row, hrow, heq⟩ := hrow'
  by_cases hb : row.transaction_id == id
  · rw [if_pos hb] at heq
    rw [← heq]
  · rw [if_neg hb] at heq
    rw [← heq] at hid
    exact absurd hid (by simpa using hb)

/-- Folding a sequence of updates all keyed away from `id` preserves
`AllTrue`. -/
theorem foldl_applyUpdate_preserves_AllTrue {id : String} :
    ∀ (us : List StatusUpdate) (db : List LogRow),
      (∀ u ∈ us, updateKey u ≠ id) → AllTrue db id →
      AllTrue (us.foldl applyUpdate db) id
  | [], db, _, h => h
  | u :: us, db, hk, h => by
    exact foldl_applyUpdate_preserves_AllTrue us (applyUpdate db u)
      (fun u' hu' => hk u' (List.mem_cons_of_mem u hu'))
      (applyUpdate_preserves_AllTrue u (hk u (List.mem_cons_self u us)) h)

/-- Transfers of other refids preserve `AllTrue`. -/
theorem process_transfers_preserves_AllTrue
    (broadcasts : String → BroadcastResult)
    (polls : String → Nat → Option Receipt) (fuel : Nat) {id : String} :
    ∀ (msgs : List DepositMsg) (db : List LogRow),
      (∀ m ∈ msgs, m.refid ≠ id) → AllTrue db id →
      AllTrue (process_transfers broadcasts polls fuel msgs db) id
  | [], db, _, h => h
  | m :: msgs, db, hk, h => by
    refine process_transfers_preserves_AllTrue broadcasts polls fuel msgs _
      (fun m' hm' => hk m' (List.mem_cons_of_mem m hm')) ?_
    refine foldl_applyUpdate_preserves_AllTrue _ db ?_ h
    intro u hu
    rw [transfer_updates_key _ _ _ _ u hu]
    exact hk m (List.mem_cons_self m msgs)

/-- If the transfer of some message issues exactly the single `setTrue`
update for its refid, and refids are unique within the batch, then after
`process_transfers` every row with that refid is marked transferred. -/
theorem process_transfers_marks (broadcasts : String → BroadcastResult)
    (polls : String → Nat → Option Receipt) (fuel : Nat)
    {m : DepositMsg} :
    ∀ (msgs : List DepositMsg) (db : List LogRow),
      m ∈ msgs → (msgs.map (fun x => x.refid)).Nodup →
      (transfer (broadcasts m.refid) (polls m.refid) fuel m.refid).updates =
        [StatusUpdate.setTrue m.refid] →
      AllTrue (process_transfers broadcasts polls fuel msgs db) m.refid
  | [], _, hm, _, _ => absurd hm (List.not_mem_nil m)
  | m' :: msgs, db, hm, hnd, hupd => by
    rw [List.map_cons] at hnd
    have hstep : process_transfers broadcasts polls fuel (m' :: msgs) db =
        process_transfers broadcasts polls fuel msgs
          ((transfer (broadcasts m'.refid) (polls m'.refid) fuel
            m'.refid).updates.foldl applyUpdate db) := by
      simp [process_transfers]
    rw [hstep]
    rcases List.mem_cons.mp hm with heq | hmem
    · subst heq
      refine process_transfers_preserves_AllTrue broadcasts polls fuel msgs _
        ?_ ?_
      · intro m'' hm'' hcon
        have hmem2 : m.refid ∈ msgs.map (fun x => x.refid) := by
          rw [← hcon]
          exact List.mem_map_of_mem (fun x => x.refid) hm''
        exact (List.nodup_cons.mp hnd).1 hmem2
      · rw [hupd]
        exact applyUpdate_setTrue_AllTrue db m.refid
    · exact process_transfers_marks broadcasts polls fuel msgs _
        hmem (List.nodup_cons.mp hnd).2 hupd

/-- Counterexample to C3: `rowA` is a not-yet-swept deposit event on an
address with no lease at all (empty stacks), so no credit is made for it
during the cycle — but the event is NOT left in the pending set: the
unconditional sweep pass of the same cycle (main.py line 1665 launches
`process_transfers` over every new depositlog row regardless of
matching) broadcasts it and marks it `transferred = true`, so
`get_newdepositlogs` no longer returns it afterwards. -/
theorem pollCycle_unmatched_counterexample :
    rowA.transferred = false ∧
      (pollCycle CONFIG VA (fun _ => 100) (fun _ => BroadcastResult.ok "0xh")
        (fun _ _ => some { status := 1 }) 5 [rowA] [[]] [] []).2.2.credits = [] ∧
      get_newdepositlogs (pollCycle CONFIG VA (fun _ => 100)
        (fun _ => BroadcastResult.ok "0xh") (fun _ _ => some { status := 1 })
        5 [rowA] [[]] [] []).1 = [] := by
  decide

/-- C3 amended: for a pending event whose `to_address` has no live lease
at its reconciliation times, `receive_deposit` makes no credit call for
it during the cycle; the event is however NOT left pending when its
(unconditional) sweep succeeds: the cycle marks it `transferred = true`,
removing it from the new-deposit set consumed by later cycles.  It stays
pending only when the sweep fails. -/
theorem pollCycle_unmatched_event (cfg : Config) (V : ValidateReferral)
    (clock : Nat → Int) (broadcasts : String → BroadcastResult)
    (polls : String → Nat → Option Receipt) (fuel : Nat)
    (db : List LogRow) (ss : List (List DepositRequest))
    (p0 rf0 : List String) (row : LogRow) (hsh : String) (rec : Receipt)
    (rc : Nat)
    (hrow : row ∈ db) (hunswept : row.transferred = false)
    (hnodup : (db.map (fun r => r.transaction_id)).Nodup)
    (hnolease : ∀ k dm r,
      ((get_newdepositlogs db).map rowToMsg)[k]? = some dm →
      dm.refid = row.transaction_id → r ∈ ss.flatten →
      matchCond dm (clock k) r = false)
    (hbc : broadcasts row.transaction_id = BroadcastResult.ok hsh)
    (hpoll : pollLoop (polls row.transaction_id) fuel 0 0 =
      PollExit.gotReceipt rec rc)
    (hst : rec.status = 1) :
    (∀ c ∈ (pollCycle cfg V clock broadcasts polls fuel db ss p0 rf0).2.2.credits,
        c.kraken_refid ≠ row.transaction_id) ∧
      ∀ row' ∈ (pollCycle cfg V clock broadcasts polls fuel db ss p0 rf0).1,
        row'.transaction_id = row.transaction_id → row'.transferred = true := by
  constructor
  · intro c hc hcon
    rcases receiveDepositLoop_credits_sound cfg V clock
        ((get_newdepositlogs db).map rowToMsg) 0 ss _ c hc with
      h' | ⟨j, dm, r, hj, hr, hmz, hk⟩
    · simp at h'
    · have hfalse := hnolease j dm r (by simpa using hj)
        (hk.symm.trans hcon) hr
      rw [Nat.zero_add] at hmz
      rw [hfalse] at hmz
      exact Bool.false_ne_true hmz
  · have hmemrow : row ∈ get_newdepositlogs db :=
      List.mem_filter.mpr ⟨hrow, by simp [hunswept]⟩
    have hmmem : rowToMsg row ∈ (get_newdepositlogs db).map rowToMsg :=
      List.mem_map_of_mem rowToMsg hmemrow
    have hnodup2 : (((get_newdepositlogs db).map rowToMsg).map
        (fun x => x.refid)).Nodup := by
      rw [List.map_map]
      have hc : ((fun x : DepositMsg => x.refid) ∘ rowToMsg) =
          fun r : LogRow => r.transaction_id := rfl
      rw [hc]
      exact List.Nodup.sublist
        (List.Sublist.map (fun r : LogRow => r.transaction_id)
          (List.filter_sublist db)) hnodup
    have hupd : (transfer (broadcasts (rowToMsg row).refid)
        (polls (rowToMsg row).refid) fuel (rowToMsg row).refid).updates =
        [StatusUpdate.setTrue (rowToMsg row).refid] := by
      show (transfer (broadcasts row.transaction_id)
        (polls row.transaction_id) fuel row.transaction_id).updates = _
      rw [hbc]
      simp only [transfer, hpoll]
      rw [if_pos hst]
      rfl
    have hall := process_transfers_marks broadcasts polls fuel
      ((get_newdepositlogs db).map rowToMsg) db hmmem hnodup2 hupd
    intro row' hrow' hid
    exact hall row' hrow' hid

/-- Witness for the amended C3 at the concrete fixture: no credit keyed
on the event and every surviving row with its transaction id is marked
transferred. -/
theorem pollCycle_unmatched_event_witness :
    (∀ c ∈ (pollCycle CONFIG VA (fun _ => 100)
        (fun _ => BroadcastResult.ok "0xh") (fun _ _ => some { status := 1 })
        5 [rowA] [[]] [] []).2.2.credits,
      c.kraken_refid ≠ rowA.transaction_id) ∧
      ∀ row' ∈ (pollCycle CONFIG VA (fun _ => 100)
        (fun _ => BroadcastResult.ok "0xh") (fun _ _ => some { status := 1 })
        5 [rowA] [[]] [] []).1,
        row'.transaction_id = rowA.transaction_id → row'.transferred = true :=
  pollCycle_unmatched_event CONFIG VA (fun _ => 100)
    (fun _ => BroadcastResult.ok "0xh") (fun _ _ => some { status := 1 })
    5 [rowA] [[]] [] [] rowA "0xh" { status := 1 } 0
    (by decide) (by decide) (by decide)
    (fun k dm r _ _ hmem => absurd hmem (by simp))
    rfl (by decide) rfl

end Tronbot
